import Mathlib

/-!
Shallow embedding of the `slogtfmt` tab-formatted slog handler (Go) and of its
printf-style wrapper and buffer pool, together with theorems checking the
natural-language specification against it.

Modelling conventions:
* Go strings are modelled at the rune level as `String`/`List Char`
  (a valid-UTF-8 Go string is exactly a sequence of Unicode scalar values,
  which is what Lean `Char` is).
* External Go standard-library functions (`time.Format`, `time.UTC`,
  `runtime.CallersFrames`, the non-ASCII part of `unicode.IsPrint`,
  `fmt.Sprint` of a group value, `time.Time.String`) are parameters of a
  `RenderEnv`; theorems quantify over them.
* `strconv.AppendQuote` / `strconv.Unquote` are embedded at the rune level
  (`escRune`, `goQuoteL`, `goUnquoteL`).
* Machine integers (`slog.Level` is an int) are `Int`; byte-slice buffers are
  modelled by their length and capacity.
-/

namespace Slogtfmt

/-- A Unicode scalar value, as Go `utf8.ValidRune` accepts it. -/
def validRune (n : Nat) : Bool :=
  decide (n < 0xd800 ∨ (0xdfff < n ∧ n < 0x110000))

/-- Lowercase hex digit character, as Go `strconv`'s `lowerhex` table. -/
def lowerHexDigit (n : Nat) : Char :=
  if n < 10 then Char.ofNat (48 + n) else Char.ofNat (87 + n)

/-- Fixed-width big-endian lowercase hex rendering, as Go strconv writes
`\xHH`, `\uHHHH`, `\UHHHHHHHH` bodies. -/
def hexDigits (count : Nat) (n : Nat) : List Char :=
  match count with
  | 0 => []
  | k + 1 => hexDigits k (n / 16) ++ [lowerHexDigit (n % 16)]

/-- Go `strconv.IsPrint` restricted to what the proofs need: on ASCII it is
exactly `0x20 ≤ r ≤ 0x7e`; the non-ASCII Unicode tables are the parameter
`ip`. -/
def goIsPrint (ip : Char → Bool) (c : Char) : Bool :=
  if c.toNat < 0x80 then decide (0x20 ≤ c.toNat ∧ c.toNat ≤ 0x7e) else ip c

/-- One rune of Go `strconv.Quote` output (`appendEscapedRune` with double
quote, not ASCII-only, not graphic-only).  A `Char` is always a valid rune, so
the `�` replacement branch of the source is unreachable here. -/
def escRune (ip : Char → Bool) (c : Char) : List Char :=
  if c = '"' ∨ c = '\\' then ['\\', c]
  else if goIsPrint ip c then [c]
  else if c = '\x07' then ['\\', 'a']
  else if c = '\x08' then ['\\', 'b']
  else if c = '\x0c' then ['\\', 'f']
  else if c = '\n' then ['\\', 'n']
  else if c = '\r' then ['\\', 'r']
  else if c = '\t' then ['\\', 't']
  else if c = '\x0b' then ['\\', 'v']
  else if c.toNat < 0x20 ∨ c.toNat = 0x7f then '\\' :: 'x' :: hexDigits 2 c.toNat
  else if c.toNat < 0x10000 then '\\' :: 'u' :: hexDigits 4 c.toNat
  else '\\' :: 'U' :: hexDigits 8 c.toNat

/-- Escape every rune of a string body, as the loop of Go `strconv.Quote`. -/
def escList (ip : Char → Bool) : List Char → List Char
  | [] => []
  | c :: rest => escRune ip c ++ escList ip rest

/-- Go `strconv.Quote` at rune level: opening quote, escaped body, closing
quote. -/
def goQuoteL (ip : Char → Bool) (s : List Char) : List Char :=
  '"' :: (escList ip s ++ ['"'])

/-- Go `strconv.Quote` on strings. -/
def goQuote (ip : Char → Bool) (s : String) : String :=
  String.mk (goQuoteL ip s.data)

/-- Go `strconv`'s `unhex`. -/
def unhex (c : Char) : Option Nat :=
  if '0' ≤ c ∧ c ≤ '9' then some (c.toNat - 48)
  else if 'a' ≤ c ∧ c ≤ 'f' then some (c.toNat - 87)
  else if 'A' ≤ c ∧ c ≤ 'F' then some (c.toNat - 55)
  else none

/-- Read exactly `count` hex digits, folding them into `acc`, as the hex loop
of Go `unquoteChar`. -/
def readHex (count : Nat) (acc : Nat) (s : List Char) : Option (Nat × List Char) :=
  match count, s with
  | 0, s => some (acc, s)
  | _ + 1, [] => none
  | k + 1, c :: rest =>
    match unhex c with
    | some d => readHex k (acc * 16 + d) rest
    | none => none

/-- Go `strconv.unquoteChar` with quote character `"`, at rune level.  The
`\xHH` escape yields a byte in Go; it is modelled as the rune of the same
value, which is exact for the values `< 0x80` that `Quote` ever produces. -/
def unqChar : List Char → Option (Char × List Char)
  | [] => none
  | c :: rest =>
    if c = '"' then none
    else if 0x80 ≤ c.toNat then some (c, rest)
    else if c ≠ '\\' then some (c, rest)
    else
      match rest with
      | [] => none
      | e :: s =>
        if e = 'a' then some ('\x07', s)
        else if e = 'b' then some ('\x08', s)
        else if e = 'f' then some ('\x0c', s)
        else if e = 'n' then some ('\n', s)
        else if e = 'r' then some ('\r', s)
        else if e = 't' then some ('\t', s)
        else if e = 'v' then some ('\x0b', s)
        else if e = 'x' then
          match readHex 2 0 s with
          | some (v, s2) => some (Char.ofNat v, s2)
          | none => none
        else if e = 'u' then
          match readHex 4 0 s with
          | some (v, s2) => if validRune v then some (Char.ofNat v, s2) else none
          | none => none
        else if e = 'U' then
          match readHex 8 0 s with
          | some (v, s2) => if validRune v then some (Char.ofNat v, s2) else none
          | none => none
        else if e = '\\' then some ('\\', s)
        else if e = '"' then some ('"', s)
        else if '0' ≤ e ∧ e ≤ '7' then
          match s with
          | d2 :: d3 :: s3 =>
            if ('0' ≤ d2 ∧ d2 ≤ '7') ∧ ('0' ≤ d3 ∧ d3 ≤ '7') then
              let v := (e.toNat - 48) * 64 + (d2.toNat - 48) * 8 + (d3.toNat - 48)
              if v ≤ 255 then some (Char.ofNat v, s3) else none
            else none
          | _ => none
        else none

/-- The body loop of Go `strconv.Unquote`: consume escaped runes until the
closing quote, rejecting a bare newline; the closing quote must end the
input.  `fuel` bounds the iteration count (each step consumes at least one
character, so the initial length suffices). -/
def unqLoop (fuel : Nat) (s : List Char) : Option (List Char) :=
  if s.head? = some '"' then (if s.length = 1 then some [] else none)
  else
    match fuel with
    | 0 => none
    | fuel' + 1 =>
      if s.head? = some '\n' then none
      else
        match unqChar s with
        | some (r, rest) =>
          match unqLoop fuel' rest with
          | some out => some (r :: out)
          | none => none
        | none => none

/-- Go `strconv.Unquote` with a double-quoted input, at rune level. -/
def goUnquoteL (s : List Char) : Option (List Char) :=
  match s with
  | '"' :: rest => unqLoop rest.length rest
  | _ => none

/-- Go `strconv.Unquote` on strings. -/
def goUnquote (s : String) : Option String :=
  (goUnquoteL s.data).map String.mk

mutual
/-- A resolved `slog.Value`.  External formatting that Go performs outside this
repository is carried as payload: `duration` and `float` carry the text their
stdlib formatters produce, `anyv` carries `Value.String()` of an unmodelled
kind, and `nilv` is the zero `slog.Value` (a nil any). -/
inductive Value where
  | str (s : String)
  | time (t : Nat)
  | bool (b : Bool)
  | duration (text : String)
  | int (i : Int)
  | uint (u : Nat)
  | float (text : String)
  | group (attrs : AttrList)
  | anyv (text : String)
  | nilv
/-- A list of `slog.Attr` (key/value pairs); a separate inductive so that the
renderer recurses structurally through nested groups. -/
inductive AttrList where
  | nil
  | cons (key : String) (v : Value) (rest : AttrList)
end

/-- Whether an attribute list is empty (`len(attrs) == 0`). -/
def isNilAttrs : AttrList → Bool
  | .nil => true
  | .cons _ _ _ => false

/-- Whether a value is the zero `slog.Value`. -/
def isNilValue : Value → Bool
  | .nilv => true
  | _ => false

/-- One `groupOrAttrs` frame: a set of attributes bound by `WithAttrs`, or a
group name bound by `WithGroup`. -/
structure GroupOrAttrs where
  attrs : AttrList := .nil
  group : String := ""

/-- Handler `Options` after construction (`Level` is an `Int` level value;
construction-time defaulting has already happened). -/
structure Options where
  level : Int
  addSource : Bool
  timeFormat : String
  timeInUTC : Bool
  timeAttributeFormat : String
  timeAttributeInUTC : Bool

/-- The handler.  The mutex and the `io.Writer` are opaque identifiers: the
claims only need that derivation shares them unchanged. -/
structure Handler where
  opts : Options
  goas : List GroupOrAttrs
  mu : Nat
  out : Nat

/-- An `slog.Record`: time, level, message, program counter, own attributes. -/
structure Record where
  time : Nat
  level : Int
  message : String
  pc : Nat
  attrs : AttrList

/-- External Go functions used by rendering, supplied as parameters:
`fmt layout t` is `t.Format(layout)`, `utc` is `Time.UTC`, `frameOf` resolves
a program counter to file and line, `ip` is the non-ASCII part of
`unicode.IsPrint`, `timeStr` is `time.Time.String()`, and `sprintGroup` is
`fmt.Append` of a group value. -/
structure RenderEnv where
  fmt : String → Nat → String
  utc : Nat → Nat
  frameOf : Nat → String × Int
  ip : Char → Bool
  timeStr : Nat → String
  sprintGroup : AttrList → String

/-- The reserved tag key (`tagKeyName` constant). -/
def tagKeyName : String := "__tag__"

/-- Function `Tag(name)`: the reserved tag attribute. -/
def Tag (name : String) : String × Value := (tagKeyName, .str name)

/-- Helper of `slog.Level.String()`: `base` when the offset is zero, else
`base` followed by the `%+d`-formatted offset. -/
def levelStrWith (base : String) (val : Int) : String :=
  if val = 0 then base
  else if 0 < val then base ++ "+" ++ toString val
  else base ++ toString val

/-- Embeds `slog.Level.String()`. -/
def levelString (l : Int) : String :=
  if l < 0 then levelStrWith "DEBUG" (l + 4)
  else if l < 4 then levelStrWith "INFO" l
  else if l < 8 then levelStrWith "WARN" (l - 4)
  else levelStrWith "ERROR" (l - 8)

/-- Embeds `slog.Value.String()` for a resolved value (used for the tag). -/
def valueStr (env : RenderEnv) : Value → String
  | .str s => s
  | .time t => env.timeStr t
  | .bool b => if b then "true" else "false"
  | .duration d => d
  | .int i => toString i
  | .uint u => toString u
  | .float f => f
  | .group as => env.sprintGroup as
  | .anyv s => s
  | .nilv => "<nil>"

mutual
/-- Embeds `Handler.appendAttr`: resolve (values here are already resolved), skip the
zero attribute, then render by kind; groups recurse with an extended dotted
prefix and empty groups are skipped. -/
def appendAttr (env : RenderEnv) (opts : Options) (buf : String) (key : String)
    (v : Value) (pfx : String) : String :=
  if key = "" ∧ isNilValue v then buf
  else
    match v with
    | .str s => buf ++ " " ++ (pfx ++ key) ++ "=" ++ goQuote env.ip s
    | .time t =>
      buf ++ " " ++ (pfx ++ key) ++ "=" ++
        (if opts.timeAttributeInUTC then env.fmt opts.timeAttributeFormat (env.utc t)
         else env.fmt opts.timeAttributeFormat t)
    | .bool b => buf ++ " " ++ (pfx ++ key) ++ "=" ++ (if b then "true" else "false")
    | .duration d => buf ++ " " ++ (pfx ++ key) ++ "=" ++ d
    | .int i => buf ++ " " ++ (pfx ++ key) ++ "=" ++ toString i
    | .uint u => buf ++ " " ++ (pfx ++ key) ++ "=" ++ toString u
    | .float f => buf ++ " " ++ (pfx ++ key) ++ "=" ++ f
    | .group as =>
      if isNilAttrs as then buf
      else appendAttrs env opts buf as (if key = "" then pfx else pfx ++ key ++ ".")
    | .anyv s => buf ++ " " ++ (pfx ++ key) ++ "=" ++ s
    | .nilv => buf ++ " " ++ (pfx ++ key) ++ "=" ++ "<nil>"

/-- Render each attribute of a list in order (the record-attribute walk and
the group recursion of `appendAttr`). -/
def appendAttrs (env : RenderEnv) (opts : Options) (buf : String)
    (as : AttrList) (pfx : String) : String :=
  match as with
  | .nil => buf
  | .cons k v rest => appendAttrs env opts (appendAttr env opts buf k v pfx) rest pfx
end

/-- The frame-attribute walk of `Handle`: like `appendAttrs` but attributes
with the reserved tag key are filtered out. -/
def appendFrameAttrs (env : RenderEnv) (opts : Options) (buf : String)
    (as : AttrList) (pfx : String) : String :=
  match as with
  | .nil => buf
  | .cons k v rest =>
    appendFrameAttrs env opts
      (if k ≠ tagKeyName then appendAttr env opts buf k v pfx else buf) rest pfx

/-- The first attribute with the tag key in one frame (the inner tag loop of
`Handle`, whose `break` stops at the first match within a frame). -/
def firstTag : AttrList → Option Value
  | .nil => none
  | .cons k v rest => if k = tagKeyName then some v else firstTag rest

/-- The tag loop of `Handle`: every frame whose attributes contain the tag key
appends one bracketed tag (the `break` leaves only the inner loop). -/
def appendTags (env : RenderEnv) (buf : String) (goas : List GroupOrAttrs) : String :=
  match goas with
  | [] => buf
  | g :: rest =>
    appendTags env
      (match firstTag g.attrs with
       | some v => buf ++ "\t[" ++ valueStr env v ++ "]"
       | none => buf) rest

/-- The trailing-group trimming loop of `Handle`: while the list is non-empty
and its last frame has a non-empty group name, drop the last frame. -/
def dropTrailingGroups (goas : List GroupOrAttrs) : List GroupOrAttrs :=
  (goas.reverse.dropWhile (fun g => g.group != "")).reverse

/-- The frame walk of `Handle`: accumulate the dotted group prefix and render
each frame's non-tag attributes; returns the buffer and the final prefix. -/
def appendGoas (env : RenderEnv) (opts : Options) (buf : String)
    (goas : List GroupOrAttrs) (gp : String) : String × String :=
  match goas with
  | [] => (buf, gp)
  | g :: rest =>
    let gp' := if g.group ≠ "" then gp ++ g.group ++ "." else gp
    appendGoas env opts (appendFrameAttrs env opts buf g.attrs gp') rest gp'

/-- The line `Handler.Handle` renders into its scratch buffer (everything up
to and including the trailing newline, before the sink write). -/
def handleLine (env : RenderEnv) (h : Handler) (r : Record) : String :=
  let buf := ""
  let buf :=
    if h.opts.timeFormat ≠ "" ∧ r.time ≠ 0 then
      buf ++ (if h.opts.timeInUTC then env.fmt h.opts.timeFormat (env.utc r.time)
              else env.fmt h.opts.timeFormat r.time) ++ "\t"
    else buf
  let buf := buf ++ levelString r.level
  let buf := appendTags env buf h.goas
  let buf :=
    if h.opts.addSource then
      buf ++ "\t" ++ (env.frameOf r.pc).1 ++ ":" ++ toString (env.frameOf r.pc).2
    else buf
  let buf := buf ++ "\t" ++ r.message
  let goas := if isNilAttrs r.attrs then dropTrailingGroups h.goas else h.goas
  let bp := appendGoas env h.opts buf goas ""
  let buf := appendAttrs env h.opts bp.1 r.attrs bp.2
  buf ++ "\n"

/-- Embeds `Handler.Enabled`: the level is at or above the configured minimum. -/
def Enabled (h : Handler) (level : Int) : Bool :=
  decide (h.opts.level ≤ level)

/-- Embeds `withGroupOrAttrs`: copy the handler, with the frame list extended by one
frame (the source allocates a fresh slice, copies, and sets the last slot). -/
def withGroupOrAttrs (h : Handler) (goa : GroupOrAttrs) : Handler :=
  { h with goas := h.goas ++ [goa] }

/-- Embeds `Handler.WithGroup`. -/
def WithGroup (h : Handler) (name : String) : Handler :=
  if name = "" then h else withGroupOrAttrs h { group := name }

/-- Embeds `Handler.WithAttrs`. -/
def WithAttrs (h : Handler) (attrs : AttrList) : Handler :=
  if isNilAttrs attrs then h else withGroupOrAttrs h { attrs := attrs }

/-- A pooled byte buffer, abstracted to its length and capacity. -/
structure Buf where
  len : Nat
  cap : Nat

/-- Constant `initialBufferSize`. -/
def initialBufferSize : Nat := 1024

/-- Constant `maxBufferSize` (`16 <<< 10`). -/
def maxBufferSize : Nat := 16 <<< 10

/-- Embeds `allocBuf`: take a pooled buffer, or have the pool's `New` make a fresh
empty one of the initial capacity.  `sync.Pool` gives no ordering guarantee;
the pool is modelled as the list of free buffers. -/
def allocBuf (pool : List Buf) : Buf × List Buf :=
  match pool with
  | [] => ({ len := 0, cap := initialBufferSize }, [])
  | b :: rest => (b, rest)

/-- Embeds `freeBuf`: drop a buffer whose capacity exceeds `maxBufferSize`, otherwise
truncate it to length zero and return it to the pool. -/
def freeBuf (pool : List Buf) (b : Buf) : List Buf :=
  if b.cap > maxBufferSize then pool
  else { len := 0, cap := b.cap } :: pool

/-- Embeds `Handler.Handle`: render the line into a pool buffer, write it to the
sink, return the sink's result, and release the buffer (the deferred
`freeBuf`).  `write` models `h.out.Write` under the mutex: `none` is a nil
error.  Buffer capacity growth beyond the written length is Go-runtime
internal; it is modelled as the least capacity holding the contents. -/
def Handle (ε : Type) (env : RenderEnv) (write : String → Option ε)
    (h : Handler) (r : Record) (pool : List Buf) : Option ε × List Buf :=
  let ap := allocBuf pool
  let line := handleLine env h r
  let grown : Buf := { len := ap.1.len + line.length, cap := max ap.1.cap (ap.1.len + line.length) }
  (write line, freeBuf ap.2 grown)

/-- An argument of the printf wrapper. -/
inductive FmtArg where
  | int (i : Int)
  | str (s : String)
  | other (text : String)

/-- Rendering of an argument under the v verb (ints in decimal, strings verbatim, other
values by their carried text). -/
def fmtArgV : FmtArg → List Char
  | .int i => (toString i).data
  | .str s => s.data
  | .other t => t.data

/-- Modelled from the spec: `fmt.Sprintf` is Go standard library, external to
this repository.  It is modelled for the verbs the wrapper's callers and
tests exercise: `%%`, `%d`, `%s`, `%v` with matching arguments; all other
characters pass through verbatim. -/
def sprintfL : List Char → List FmtArg → List Char
  | '%' :: '%' :: rest, args => '%' :: sprintfL rest args
  | '%' :: 'd' :: rest, .int i :: args => (toString i).data ++ sprintfL rest args
  | '%' :: 's' :: rest, .str s :: args => s.data ++ sprintfL rest args
  | '%' :: 'v' :: rest, a :: args => fmtArgV a ++ sprintfL rest args
  | c :: rest, args => c :: sprintfL rest args
  | [], _ => []

/-- Modelled from the spec: `fmt.Sprintf` on strings (see `sprintfL`). -/
def goSprintf (format : String) (args : List FmtArg) : String :=
  String.mk (sprintfL format.data args)

/-- Embeds `loggerf.Logger.Logf`: check `Enabled(level)` on the underlying handle
first; only then format and forward the message.  `enabledF` is the
underlying `slog.Logger.Enabled`; the returned value is the forwarded record
message (`none` when nothing is logged). -/
def Logf (enabledF : Int → Bool) (level : Int) (format : String)
    (args : List FmtArg) : Option String :=
  if enabledF level then some (goSprintf format args) else none

/-! Concrete fixtures used by witnesses and counterexamples.  The external
functions of `envW` are arbitrary computable stand-ins. -/

/-- A concrete render environment for witnesses. -/
def envW : RenderEnv :=
  { fmt := fun l t => l ++ "@" ++ toString t
    utc := fun t => t + 1
    frameOf := fun _ => ("f.go", 7)
    ip := fun _ => false
    timeStr := fun t => "ts" ++ toString t
    sprintGroup := fun _ => "grp" }

/-- Concrete options: level INFO, no source, timestamps disabled. -/
def optsW : Options :=
  { level := 0
    addSource := false
    timeFormat := ""
    timeInUTC := false
    timeAttributeFormat := "RFC"
    timeAttributeInUTC := false }

/-- A concrete handler with no accumulated frames. -/
def hW : Handler := { opts := optsW, goas := [], mu := 3, out := 5 }

/-- A concrete record with no attributes. -/
def rPlainW : Record := { time := 0, level := 0, message := "m", pc := 0, attrs := .nil }

/-! Helper lemmas. -/

mutual
/-- Attribute rendering reads only the two time-attribute fields of the
options. -/
theorem appendAttr_opts_congr (env : RenderEnv) (o1 o2 : Options)
    (hf : o1.timeAttributeFormat = o2.timeAttributeFormat)
    (hu : o1.timeAttributeInUTC = o2.timeAttributeInUTC)
    (buf k pfx : String) (v : Value) :
    appendAttr env o1 buf k v pfx = appendAttr env o2 buf k v pfx := by
  cases v with
  | group as =>
    simp only [appendAttr]
    rw [appendAttrs_opts_congr env o1 o2 hf hu]
  | time t => simp only [appendAttr, hf, hu]
  | str s => rfl
  | bool b => rfl
  | duration d => rfl
  | int i => rfl
  | uint u => rfl
  | float f => rfl
  | anyv s => rfl
  | nilv => rfl

/-- List version of `appendAttr_opts_congr`. -/
theorem appendAttrs_opts_congr (env : RenderEnv) (o1 o2 : Options)
    (hf : o1.timeAttributeFormat = o2.timeAttributeFormat)
    (hu : o1.timeAttributeInUTC = o2.timeAttributeInUTC)
    (buf pfx : String) (as : AttrList) :
    appendAttrs env o1 buf as pfx = appendAttrs env o2 buf as pfx := by
  cases as with
  | nil => rfl
  | cons k v rest =>
    simp only [appendAttrs]
    rw [appendAttr_opts_congr env o1 o2 hf hu, appendAttrs_opts_congr env o1 o2 hf hu]
end

/-- Frame-attribute version of `appendAttr_opts_congr`. -/
theorem appendFrameAttrs_opts_congr (env : RenderEnv) (o1 o2 : Options)
    (hf : o1.timeAttributeFormat = o2.timeAttributeFormat)
    (hu : o1.timeAttributeInUTC = o2.timeAttributeInUTC)
    (as : AttrList) : ∀ buf pfx,
    appendFrameAttrs env o1 buf as pfx = appendFrameAttrs env o2 buf as pfx := by
  cases as with
  | nil => intro buf pfx; rfl
  | cons k v rest =>
    intro buf pfx
    simp only [appendFrameAttrs]
    rw [appendAttr_opts_congr env o1 o2 hf hu,
      appendFrameAttrs_opts_congr env o1 o2 hf hu rest]

/-- Frame-walk version of `appendAttr_opts_congr`. -/
theorem appendGoas_opts_congr (env : RenderEnv) (o1 o2 : Options)
    (hf : o1.timeAttributeFormat = o2.timeAttributeFormat)
    (hu : o1.timeAttributeInUTC = o2.timeAttributeInUTC)
    (goas : List GroupOrAttrs) : ∀ buf gp,
    appendGoas env o1 buf goas gp = appendGoas env o2 buf goas gp := by
  induction goas with
  | nil => intro buf gp; rfl
  | cons g rest ih =>
    intro buf gp
    simp only [appendGoas]
    rw [appendFrameAttrs_opts_congr env o1 o2 hf hu, ih]

/-- Releasing any buffer into a pool of zero-length buffers leaves every
pooled buffer zero-length. -/
theorem freeBuf_mem_len (pool : List Buf) (b : Buf)
    (hp : ∀ x ∈ pool, x.len = 0) : ∀ x ∈ freeBuf pool b, x.len = 0 := by
  intro x hx
  by_cases hc : b.cap > maxBufferSize
  · simp only [freeBuf, if_pos hc] at hx
    exact hp x hx
  · simp only [freeBuf, if_neg hc, List.mem_cons] at hx
    rcases hx with rfl | hx
    · rfl
    · exact hp x hx

/-- The part of the pool left by an acquisition is a sub-collection of the
pool. -/
theorem allocBuf_rest_sub (pool : List Buf) :
    ∀ x ∈ (allocBuf pool).2, x ∈ pool := by
  rcases pool with _ | ⟨b, t⟩
  · simp [allocBuf]
  · exact fun x hx => List.mem_cons_of_mem _ hx

/-- Folding string concatenation over a list distributes over a prepended
piece. -/
theorem foldl_append_hoist (l : List String) : ∀ a b : String,
    l.foldl (· ++ ·) (a ++ b) = a ++ l.foldl (· ++ ·) b := by
  induction l with
  | nil => intro a b; rfl
  | cons s t ih =>
    intro a b
    simp only [List.foldl_cons]
    rw [String.append_assoc, ih]

/-- Unfolding lemma for `String.join` on a cons cell. -/
theorem stringJoin_cons (s : String) (l : List String) :
    String.join (s :: l) = s ++ String.join l := by
  simp only [String.join, List.foldl_cons]
  have h1 : ("" ++ s : String) = s := by simp
  have h2 : (s : String) = s ++ "" := by simp
  rw [h1]
  conv_lhs => rw [h2]
  exact foldl_append_hoist l s ""

/-- Appending tag brackets over a concatenation of frame lists composes. -/
theorem appendTags_append (env : RenderEnv) (l1 l2 : List GroupOrAttrs) : ∀ buf,
    appendTags env buf (l1 ++ l2) = appendTags env (appendTags env buf l1) l2 := by
  induction l1 with
  | nil => intro buf; rfl
  | cons g rest ih =>
    intro buf
    simp only [List.cons_append, appendTags]
    exact ih _

/-- Frames with no attributes contribute no tag bracket. -/
theorem appendTags_no_attrs (env : RenderEnv) (ds : List GroupOrAttrs)
    (hds : ∀ g ∈ ds, g.attrs = .nil) : ∀ buf, appendTags env buf ds = buf := by
  induction ds with
  | nil => intro buf; rfl
  | cons g rest ih =>
    intro buf
    have hg : g.attrs = .nil := hds g (List.mem_cons_self g rest)
    simp only [appendTags, hg, firstTag]
    exact ih (fun x hx => hds x (List.mem_cons_of_mem g hx)) buf

/-- The head of the kept part of `dropWhile` fails the predicate. -/
theorem head_dropWhile_not {α} (p : α → Bool) (l : List α) :
    ∀ x, (l.dropWhile p).head? = some x → p x = false := by
  induction l with
  | nil => intro x hx; simp [List.dropWhile] at hx
  | cons a t ih =>
    intro x hx
    by_cases hp : p a
    · rw [List.dropWhile_cons_of_pos hp] at hx
      exact ih x hx
    · rw [List.dropWhile_cons_of_neg hp] at hx
      simp only [List.head?_cons, Option.some.injEq] at hx
      subst hx
      exact Bool.not_eq_true _ |>.mp hp

/-- Decomposition by the trailing-group trim: the original frame list is the
trimmed list followed by the dropped frames, all of which are group
markers. -/
theorem dropTrailingGroups_decomp (gs : List GroupOrAttrs) :
    ∃ ds, gs = dropTrailingGroups gs ++ ds ∧ ∀ g ∈ ds, g.group ≠ "" := by
  refine ⟨(gs.reverse.takeWhile (fun g => g.group != "")).reverse, ?_, ?_⟩
  · rw [dropTrailingGroups, ← List.reverse_append, List.takeWhile_append_dropWhile,
      List.reverse_reverse]
  · intro g hg
    rw [List.mem_reverse] at hg
    have := List.mem_takeWhile_imp hg
    simpa [bne_iff_ne] using this

/-- After the trim, the last frame (if any) is not a group marker. -/
theorem dropTrailingGroups_last (gs : List GroupOrAttrs) :
    ∀ g, (dropTrailingGroups gs).getLast? = some g → g.group = "" := by
  intro g hg
  rw [dropTrailingGroups, List.getLast?_reverse] at hg
  have := head_dropWhile_not (fun g => g.group != "") gs.reverse g hg
  simpa [bne_iff_ne] using this

/-- The trailing-group trim is idempotent. -/
theorem dropTrailingGroups_idem (gs : List GroupOrAttrs) :
    dropTrailingGroups (dropTrailingGroups gs) = dropTrailingGroups gs := by
  rw [dropTrailingGroups, dropTrailingGroups, List.reverse_reverse]
  cases h : gs.reverse.dropWhile (fun g => g.group != "") with
  | nil => simp
  | cons a t =>
    have ha : (fun g : GroupOrAttrs => g.group != "") a = false := by
      apply head_dropWhile_not (fun g => g.group != "") gs.reverse
      simp [h]
    rw [List.dropWhile_cons_of_neg (by simp [ha])]

/-! Claims. -/

/-- Claim C5: `WithAttrs` with empty attrs and `WithGroup` with empty name
return the handler itself; with non-empty input each returns a handler equal
to the parent except for one appended frame (attribute frame, resp. group
marker), so options, mutex and sink are shared unchanged.  The parent value
itself is never modified — derivation in the embedding is pure, mirroring the
source's copy-on-derive. -/
theorem c5_with_derivation (h : Handler) (as : AttrList) (n : String)
    (ha : isNilAttrs as = false) (hn : n ≠ "") :
    WithAttrs h .nil = h ∧ WithGroup h "" = h ∧
    WithAttrs h as = { h with goas := h.goas ++ [{ attrs := as }] } ∧
    WithGroup h n = { h with goas := h.goas ++ [{ group := n }] } := by
  refine ⟨rfl, rfl, ?_, ?_⟩
  · simp [WithAttrs, withGroupOrAttrs, ha]
  · simp [WithGroup, withGroupOrAttrs, hn]

/-- Witness for C5 at a singleton attribute list and group name `g`. -/
theorem c5_witness :
    WithAttrs hW (.cons "k" (.str "v") .nil) =
      { hW with goas := hW.goas ++ [{ attrs := .cons "k" (.str "v") .nil }] } ∧
    WithGroup hW "g" = { hW with goas := hW.goas ++ [{ group := "g" }] } :=
  ⟨(c5_with_derivation hW (.cons "k" (.str "v") .nil) "g" rfl (by decide)).2.2.1,
   (c5_with_derivation hW (.cons "k" (.str "v") .nil) "g" rfl (by decide)).2.2.2⟩

/-- Claim C6: `freeBuf` drops a buffer whose capacity exceeds 16384 bytes,
otherwise truncates it to length zero and pools it; hence a pool whose
buffers are all zero-length with capacity at most 16384 stays that way. -/
theorem c6_freeBuf_cap (pool : List Buf) (b : Buf)
    (hinv : ∀ x ∈ pool, x.len = 0 ∧ x.cap ≤ maxBufferSize) :
    (maxBufferSize < b.cap → freeBuf pool b = pool) ∧
    (b.cap ≤ maxBufferSize → freeBuf pool b = { len := 0, cap := b.cap } :: pool) ∧
    (∀ x ∈ freeBuf pool b, x.len = 0 ∧ x.cap ≤ maxBufferSize) := by
  refine ⟨fun hgt => ?_, fun hle => ?_, fun x hx => ?_⟩
  · simp [freeBuf, hgt]
  · have hng : ¬ b.cap > maxBufferSize := by omega
    simp [freeBuf, hng]
  · by_cases hc : b.cap > maxBufferSize
    · simp only [freeBuf, if_pos hc] at hx
      exact hinv x hx
    · simp only [freeBuf, if_neg hc, List.mem_cons] at hx
      rcases hx with rfl | hx
      · refine ⟨rfl, ?_⟩
        show b.cap ≤ maxBufferSize
        omega
      · exact hinv x hx

/-- Witness for C6: a 100-capacity buffer of length 5 is truncated and
pooled. -/
theorem c6_witness :
    freeBuf [] { len := 5, cap := 100 } = [{ len := 0, cap := 100 }] :=
  (c6_freeBuf_cap [] { len := 5, cap := 100 } (by simp)).2.1 (by decide)

/-- Claim C7: `Handle` returns exactly the sink write's result for the
rendered line — a non-nil error if and only if the write fails, unmodified,
with no retry — and afterwards every buffer held by the pool has length zero,
so nothing of the rendered line is retained across calls. -/
theorem c7_handle_sink_error {ε : Type} (env : RenderEnv) (write : String → Option ε)
    (h : Handler) (r : Record) (pool : List Buf)
    (hpool : ∀ x ∈ pool, x.len = 0) :
    (Handle ε env write h r pool).1 = write (handleLine env h r) ∧
    (∀ x ∈ (Handle ε env write h r pool).2, x.len = 0) := by
  refine ⟨rfl, ?_⟩
  intro x hx
  have hx2 : x ∈ freeBuf (allocBuf pool).2
      { len := (allocBuf pool).1.len + (handleLine env h r).length
        cap := max (allocBuf pool).1.cap ((allocBuf pool).1.len + (handleLine env h r).length) } := hx
  exact freeBuf_mem_len _ _ (fun y hy => hpool y (allocBuf_rest_sub pool y hy)) x hx2

/-- Witness for C7: a failing write's error value 7 is returned unmodified
and the pool buffer count stays zero-length. -/
theorem c7_witness :
    (Handle Nat envW (fun _ => some 7) hW rPlainW []).1 = some 7 ∧
    (∀ x ∈ (Handle Nat envW (fun _ => some 7) hW rPlainW []).2, x.len = 0) :=
  c7_handle_sink_error envW (fun _ => some 7) hW rPlainW [] (by simp)

/-- Claim C8: the printf wrapper's `Logf` checks `Enabled(level)` first: when
disabled nothing is logged; when enabled the forwarded message is exactly the
printf substitution, and in particular the warning format with argument 98
yields `Warning: disk usage is at 98%`. -/
theorem c8_logf (h : Handler) (lvl : Int) (format : String) (args : List FmtArg) :
    (Enabled h lvl = false → Logf (Enabled h) lvl format args = none) ∧
    (Enabled h lvl = true → Logf (Enabled h) lvl format args = some (goSprintf format args)) ∧
    goSprintf "Warning: disk usage is at %d%%" [.int 98] = "Warning: disk usage is at 98%" :=
  ⟨fun hf => by simp [Logf, hf], fun ht => by simp [Logf, ht], by decide⟩

/-- Witness for C8: with the INFO-level handler, a level below INFO logs
nothing and WARN forwards the substituted message. -/
theorem c8_witness :
    Logf (Enabled hW) (-1) "x%d" [.int 2] = none ∧
    Logf (Enabled hW) 4 "x%d" [.int 2] = some (goSprintf "x%d" [.int 2]) :=
  ⟨(c8_logf hW (-1) "x%d" [.int 2]).1 (by decide),
   (c8_logf hW 4 "x%d" [.int 2]).2.1 (by decide)⟩

/-- Claim C9: `Handle` never consults the configured minimum level: for a
record below the minimum, `Enabled` is false, yet `Handle` still writes the
rendered line to the sink, and the rendered line does not depend on the
configured level at all. -/
theorem c9_handle_ignores_level {ε : Type} (env : RenderEnv) (write : String → Option ε)
    (h : Handler) (r : Record) (pool : List Buf) (lvl : Int)
    (hbelow : r.level < h.opts.level) :
    Enabled h r.level = false ∧
    (Handle ε env write h r pool).1 = write (handleLine env h r) ∧
    handleLine env { h with opts := { h.opts with level := lvl } } r = handleLine env h r := by
  refine ⟨?_, rfl, ?_⟩
  · simp only [Enabled, decide_eq_false_iff_not]
    omega
  · simp only [handleLine]
    rw [appendGoas_opts_congr env { h.opts with level := lvl } h.opts rfl rfl,
      appendAttrs_opts_congr env { h.opts with level := lvl } h.opts rfl rfl]

/-- Witness for C9: a DEBUG record through the INFO-minimum handler is not
enabled, yet `Handle` still performs the write. -/
theorem c9_witness :
    Enabled hW (-4) = false ∧
    (Handle Unit envW (fun _ => none) hW
      { time := 0, level := -4, message := "m", pc := 0, attrs := .nil } []).1 = none := by
  have := c9_handle_ignores_level envW (fun _ => (none : Option Unit)) hW
    { time := 0, level := -4, message := "m", pc := 0, attrs := .nil } [] 0 (by decide)
  exact ⟨this.1, this.2.1⟩

/-- A handler carrying the reserved tag in two distinct frames (as two
chained `With(Tag(...))` calls produce). -/
def hTagsW : Handler := { opts := optsW, goas := [{ attrs := .cons tagKeyName (.str "a") .nil }, { attrs := .cons tagKeyName (.str "b") .nil }], mu := 0, out := 0 }

/-- Counterexample to claim C1: with the reserved tag key bound in two
different frames, `Handle` appends two bracketed tags — the later frame's tag
is not dropped, because the source's `break` exits only the inner loop. -/
theorem c1_counterexample :
    handleLine envW hTagsW rPlainW = "INFO\t[a]\t[b]\tm\n" ∧
    handleLine envW hTagsW rPlainW ≠ "INFO\t[a]\tm\n" :=
  ⟨rfl, by decide⟩

/-- Claim C1 as amended: the tag loop appends one bracketed tag per frame
whose attributes contain the reserved key, in frame order, each frame using
only the first tag attribute within it (later tags inside the same frame are
dropped); this is the tag section `Handle` puts after the level field. -/
theorem c1_tag_per_frame (env : RenderEnv) (buf : String) (goas : List GroupOrAttrs) :
    appendTags env buf goas =
      buf ++ String.join (goas.map (fun g =>
        match firstTag g.attrs with
        | some v => "\t[" ++ valueStr env v ++ "]"
        | none => "")) ∧
    (∀ v rest, firstTag (.cons tagKeyName v rest) = some v) := by
  constructor
  · induction goas generalizing buf with
    | nil => simp [appendTags, String.join]
    | cons g rest ih =>
      simp only [appendTags, List.map_cons, stringJoin_cons]
      cases hft : firstTag g.attrs with
      | none => simp [ih]
      | some v => simp [ih, String.append_assoc]
  · intro v rest
    simp [firstTag]

/-- A handler whose options configure a (non-empty) timestamp format. -/
def hTimeW : Handler := { opts := { optsW with timeFormat := "X" }, goas := [], mu := 0, out := 0 }

/-- Counterexample to claim C2: with a timestamp format configured but a
record whose time is the zero time, the rendered line omits the leading time
field, so it does not equal formatted-time, tab, level, tab, message,
newline. -/
theorem c2_counterexample :
    handleLine envW hTimeW rPlainW = "INFO\tm\n" ∧
    handleLine envW hTimeW rPlainW ≠
      envW.fmt hTimeW.opts.timeFormat rPlainW.time ++ "\t" ++ levelString rPlainW.level ++
        "\t" ++ rPlainW.message ++ "\n" :=
  ⟨rfl, by decide⟩

/-- Claim C2 as amended: for a record with a non-empty message and no
attributes through a handler with no frames (source capture off, its
default): with a timestamp format configured and a non-zero record time the
line is formatted time, tab, level, tab, message, newline; with an empty
format, or a zero record time, the time field and its tab are omitted. -/
theorem c2_basic_line (env : RenderEnv) (h : Handler) (r : Record)
    (hg : h.goas = []) (hs : h.opts.addSource = false) (ha : r.attrs = .nil)
    (_hm : r.message ≠ "") :
    (h.opts.timeFormat ≠ "" → r.time ≠ 0 →
      handleLine env h r =
        (if h.opts.timeInUTC then env.fmt h.opts.timeFormat (env.utc r.time)
         else env.fmt h.opts.timeFormat r.time) ++ "\t" ++ levelString r.level ++
          "\t" ++ r.message ++ "\n") ∧
    (h.opts.timeFormat = "" →
      handleLine env h r = levelString r.level ++ "\t" ++ r.message ++ "\n") ∧
    (r.time = 0 →
      handleLine env h r = levelString r.level ++ "\t" ++ r.message ++ "\n") := by
  refine ⟨fun htf htz => ?_, fun htf => ?_, fun htz => ?_⟩
  · simp [handleLine, hg, hs, ha, htf, htz, appendTags, appendGoas, appendAttrs,
      dropTrailingGroups, isNilAttrs, String.append_assoc]
  · simp [handleLine, hg, hs, ha, htf, appendTags, appendGoas, appendAttrs,
      dropTrailingGroups, isNilAttrs, String.append_assoc]
  · simp [handleLine, hg, hs, ha, htz, appendTags, appendGoas, appendAttrs,
      dropTrailingGroups, isNilAttrs, String.append_assoc]

/-- Witness for C2 at a concrete configured format and non-zero time. -/
theorem c2_witness :
    handleLine envW hTimeW { time := 1, level := 0, message := "m", pc := 0, attrs := .nil } =
      (if hTimeW.opts.timeInUTC then envW.fmt hTimeW.opts.timeFormat (envW.utc 1)
       else envW.fmt hTimeW.opts.timeFormat 1) ++ "\t" ++ levelString 0 ++ "\t" ++ "m" ++ "\n" :=
  (c2_basic_line envW hTimeW { time := 1, level := 0, message := "m", pc := 0, attrs := .nil }
    rfl rfl rfl (by decide)).1 (by decide) (by decide)

/-- Claim C3: for a record with no attributes of its own, the rendering is
unchanged by replacing the frame list with its trailing-group trim (so no
dangling dotted prefix is emitted); the trim removes exactly a suffix of
group-marker frames and keeps everything before it, and what remains never
ends in a group marker.  The well-formedness hypothesis (every frame is a
group marker or an attribute frame, never both) holds for every handler
built through `WithAttrs`/`WithGroup`. -/
theorem c3_trailing_groups (env : RenderEnv) (h : Handler) (r : Record)
    (ha : r.attrs = .nil)
    (hwf : ∀ g ∈ h.goas, g.group = "" ∨ g.attrs = .nil) :
    handleLine env h r = handleLine env { h with goas := dropTrailingGroups h.goas } r ∧
    (∃ ds, h.goas = dropTrailingGroups h.goas ++ ds ∧ ∀ g ∈ ds, g.group ≠ "") ∧
    (∀ g, (dropTrailingGroups h.goas).getLast? = some g → g.group = "") := by
  refine ⟨?_, dropTrailingGroups_decomp h.goas, dropTrailingGroups_last h.goas⟩
  obtain ⟨ds, hdecomp, hdsg⟩ := dropTrailingGroups_decomp h.goas
  have hdsa : ∀ g ∈ ds, g.attrs = .nil := fun g hg =>
    (hwf g (hdecomp ▸ List.mem_append_right _ hg)).resolve_left (hdsg g hg)
  have htags : ∀ buf, appendTags env buf h.goas =
      appendTags env buf (dropTrailingGroups h.goas) := by
    intro buf
    conv_lhs => rw [hdecomp]
    rw [appendTags_append]
    rw [appendTags_no_attrs env ds hdsa]
  simp only [handleLine, ha, isNilAttrs, if_pos, htags, dropTrailingGroups_idem]

/-- A handler with a group frame, then an attribute frame, then a trailing
group frame. -/
def hGrpW : Handler := { opts := optsW, goas := [{ group := "a" }, { attrs := .cons "b" (.int 1) .nil }, { group := "z" }], mu := 0, out := 0 }

/-- Witness for C3 at a handler whose last frame is a trailing group. -/
theorem c3_witness :
    handleLine envW hGrpW rPlainW =
      handleLine envW { hGrpW with goas := dropTrailingGroups hGrpW.goas } rPlainW :=
  (c3_trailing_groups envW hGrpW rPlainW rfl (by
    intro g hg
    simp only [hGrpW, List.mem_cons, List.not_mem_nil, or_false] at hg
    rcases hg with rfl | rfl | rfl
    · exact Or.inr rfl
    · exact Or.inl rfl
    · exact Or.inr rfl)).1

/-- Claim C10: a tag-key attribute arriving in the record's own attribute
list is rendered as an ordinary quoted key/value pair with no bracketed tag
(the line has no tag section when no frame carries one), while the same
attribute inside a frame is filtered out of key/value rendering. -/
theorem c10_record_tag_not_bracketed (env : RenderEnv) (h : Handler) (r : Record) (v : String)
    (hg : h.goas = []) (hs : h.opts.addSource = false) (ht : r.time = 0)
    (ha : r.attrs = .cons tagKeyName (.str v) .nil) :
    handleLine env h r =
      levelString r.level ++ "\t" ++ r.message ++ " " ++ tagKeyName ++ "=" ++
        goQuote env.ip v ++ "\n" ∧
    (∀ buf pfx, appendFrameAttrs env h.opts buf (.cons tagKeyName (.str v) .nil) pfx = buf) := by
  constructor
  · simp [handleLine, hg, hs, ht, ha, appendTags, appendGoas, appendAttrs, appendAttr,
      isNilAttrs, isNilValue, tagKeyName, String.append_assoc]
  · intro buf pfx
    simp [appendFrameAttrs, tagKeyName]

/-- A record carrying the reserved tag key among its own attributes. -/
def rTagW : Record := { time := 0, level := 0, message := "m", pc := 0, attrs := .cons tagKeyName (.str "x") .nil }

/-- Reading back a lowercase hex digit recovers its value. -/
theorem unhex_lowerHexDigit : ∀ d, d < 16 → unhex (lowerHexDigit d) = some d := by
  decide

/-- Reading back a fixed-width hex body recovers the encoded value and leaves
the tail, folding into the accumulator. -/
theorem readHex_hexDigits (count : Nat) : ∀ (extra acc n : Nat) (t : List Char),
    n < 16 ^ count →
    readHex (count + extra) acc (hexDigits count n ++ t) =
      readHex extra (acc * 16 ^ count + n) t := by
  induction count with
  | zero =>
    intro extra acc n t hn
    have hn0 : n = 0 := by omega
    subst hn0
    simp [hexDigits, Nat.zero_add]
  | succ k ih =>
    intro extra acc n t hn
    have hp : (16 : Nat) ^ (k + 1) = 16 ^ k * 16 := pow_succ 16 k
    have hdiv : n / 16 < 16 ^ k := by
      rw [hp] at hn
      omega
    have hstep : hexDigits (k + 1) n ++ t =
        hexDigits k (n / 16) ++ (lowerHexDigit (n % 16) :: t) := by
      simp [hexDigits, List.append_assoc]
    have harith : k + 1 + extra = k + (1 + extra) := by omega
    rw [hstep, harith, ih (1 + extra) acc (n / 16) _ hdiv]
    have h1e : 1 + extra = extra + 1 := by omega
    rw [h1e]
    show (match unhex (lowerHexDigit (n % 16)) with
      | some d => readHex extra ((acc * 16 ^ k + n / 16) * 16 + d) t
      | none => none) = readHex extra (acc * 16 ^ (k + 1) + n) t
    rw [unhex_lowerHexDigit (n % 16) (by omega)]
    have harith2 : (acc * 16 ^ k + n / 16) * 16 + n % 16 = acc * 16 ^ (k + 1) + n := by
      rw [hp]
      have := Nat.div_add_mod n 16
      nlinarith
    show readHex extra ((acc * 16 ^ k + n / 16) * 16 + n % 16) t = _
    rw [harith2]

/-- Reading back a fixed-width hex body from accumulator zero. -/
theorem readHex_hexDigits0 (count n : Nat) (t : List Char) (hn : n < 16 ^ count) :
    readHex count 0 (hexDigits count n ++ t) = some (n, t) := by
  have := readHex_hexDigits count 0 0 n t hn
  simpa using this

/-- Every `Char` is a valid rune. -/
theorem char_validRune (c : Char) : validRune c.toNat = true := by
  have h := c.valid
  simp only [UInt32.isValidChar, Nat.isValidChar] at h
  simp only [validRune, Char.toNat, decide_eq_true_eq]
  exact h

/-- Every code point is below `0x110000`. -/
theorem char_toNat_lt (c : Char) : c.toNat < 0x110000 := by
  have h := char_validRune c
  simp only [validRune, decide_eq_true_eq] at h
  omega

set_option maxHeartbeats 2000000 in
/-- Decoding one escaped rune recovers the rune and leaves the tail. -/
theorem unqChar_esc (ip : Char → Bool) (c : Char) (t : List Char) :
    unqChar (escRune ip c ++ t) = some (c, t) := by
  rw [escRune]
  split_ifs with h1 h2 h3 h4 h5 h6 h7 h8 h9 h10 h11
  · rcases h1 with rfl | rfl <;> simp [unqChar]
  · have hq : c ≠ '"' := fun hc => h1 (Or.inl hc)
    have hb : c ≠ '\\' := fun hc => h1 (Or.inr hc)
    by_cases h80 : 0x80 ≤ c.toNat <;> simp [unqChar, hq, hb, h80]
  · subst h3; simp [unqChar]
  · subst h4; simp [unqChar]
  · subst h5; simp [unqChar]
  · subst h6; simp [unqChar]
  · subst h7; simp [unqChar]
  · subst h8; simp [unqChar]
  · subst h9; simp [unqChar]
  · have hlt : c.toNat < 16 ^ 2 := by
      rcases h10 with h | h <;> omega
    have hrd := readHex_hexDigits0 2 c.toNat t hlt
    simp [unqChar, hrd, Char.ofNat_toNat]
  · have hlt : c.toNat < 16 ^ 4 := by
      have : (16 : Nat) ^ 4 = 0x10000 := by norm_num
      omega
    have hrd := readHex_hexDigits0 4 c.toNat t hlt
    simp [unqChar, hrd, char_validRune, Char.ofNat_toNat]
  · have hlt : c.toNat < 16 ^ 8 := by
      have h1 : (16 : Nat) ^ 8 = 0x100000000 := by norm_num
      have h2 := char_toNat_lt c
      omega
    have hrd := readHex_hexDigits0 8 c.toNat t hlt
    simp [unqChar, hrd, char_validRune, Char.ofNat_toNat]

/-- The escape of a rune is non-empty, and starts neither with a quote nor
with a newline. -/
theorem escRune_cons (ip : Char → Bool) (c : Char) :
    ∃ d l, escRune ip c = d :: l ∧ d ≠ '"' ∧ d ≠ '\n' := by
  rw [escRune]
  by_cases h1 : c = '"' ∨ c = '\\'
  · rw [if_pos h1]
    exact ⟨'\\', [c], rfl, by decide, by decide⟩
  rw [if_neg h1]
  by_cases h2 : goIsPrint ip c = true
  · rw [if_pos h2]
    refine ⟨c, [], rfl, fun hc => h1 (Or.inl hc), ?_⟩
    intro hc
    subst hc
    simp [goIsPrint] at h2
  rw [if_neg h2]
  by_cases h3 : c = '\x07'
  · rw [if_pos h3]
    exact ⟨'\\', ['a'], rfl, by decide, by decide⟩
  rw [if_neg h3]
  by_cases h4 : c = '\x08'
  · rw [if_pos h4]
    exact ⟨'\\', ['b'], rfl, by decide, by decide⟩
  rw [if_neg h4]
  by_cases h5 : c = '\x0c'
  · rw [if_pos h5]
    exact ⟨'\\', ['f'], rfl, by decide, by decide⟩
  rw [if_neg h5]
  by_cases h6 : c = '\n'
  · rw [if_pos h6]
    exact ⟨'\\', ['n'], rfl, by decide, by decide⟩
  rw [if_neg h6]
  by_cases h7 : c = '\r'
  · rw [if_pos h7]
    exact ⟨'\\', ['r'], rfl, by decide, by decide⟩
  rw [if_neg h7]
  by_cases h8 : c = '\t'
  · rw [if_pos h8]
    exact ⟨'\\', ['t'], rfl, by decide, by decide⟩
  rw [if_neg h8]
  by_cases h9 : c = '\x0b'
  · rw [if_pos h9]
    exact ⟨'\\', ['v'], rfl, by decide, by decide⟩
  rw [if_neg h9]
  by_cases h10 : c.toNat < 0x20 ∨ c.toNat = 0x7f
  · rw [if_pos h10]
    exact ⟨'\\', 'x' :: hexDigits 2 c.toNat, rfl, by decide, by decide⟩
  rw [if_neg h10]
  by_cases h11 : c.toNat < 0x10000
  · rw [if_pos h11]
    exact ⟨'\\', 'u' :: hexDigits 4 c.toNat, rfl, by decide, by decide⟩
  rw [if_neg h11]
  exact ⟨'\\', 'U' :: hexDigits 8 c.toNat, rfl, by decide, by decide⟩

/-- Escaping never shortens a string. -/
theorem escList_ge (ip : Char → Bool) : ∀ s : List Char,
    s.length ≤ (escList ip s).length := by
  intro s
  induction s with
  | nil => simp [escList]
  | cons c rest ih =>
    obtain ⟨d, l, he, _, _⟩ := escRune_cons ip c
    simp only [escList, List.length_append, List.length_cons, he]
    omega

/-- The unquote loop inverts the escape loop, given enough fuel. -/
theorem unqLoop_esc (ip : Char → Bool) : ∀ (s : List Char) (fuel : Nat),
    s.length ≤ fuel → unqLoop fuel (escList ip s ++ ['"']) = some s := by
  intro s
  induction s with
  | nil =>
    intro fuel _
    cases fuel <;> rfl
  | cons c rest ih =>
    intro fuel hf
    simp only [List.length_cons] at hf
    obtain ⟨f, rfl⟩ : ∃ f, fuel = f + 1 := ⟨fuel - 1, by omega⟩
    obtain ⟨d, l, he, hdq, hdn⟩ := escRune_cons ip c
    have hinput : escList ip (c :: rest) ++ ['"'] =
        d :: (l ++ (escList ip rest ++ ['"'])) := by
      simp [escList, he, List.append_assoc]
    have huc : unqChar (d :: (l ++ (escList ip rest ++ ['"']))) =
        some (c, escList ip rest ++ ['"']) := by
      rw [← List.cons_append, ← he]
      exact unqChar_esc ip c _
    rw [hinput, unqLoop]
    simp only [List.head?_cons, Option.some.injEq]
    rw [if_neg hdq, if_neg hdn]
    simp only [huc]
    rw [ih f (by omega)]

/-- Go `Unquote` inverts Go `Quote` at rune level. -/
theorem goUnquoteL_goQuoteL (ip : Char → Bool) (s : List Char) :
    goUnquoteL (goQuoteL ip s) = some s := by
  have hdef : goUnquoteL (goQuoteL ip s) =
      unqLoop (escList ip s ++ ['"']).length (escList ip s ++ ['"']) := rfl
  rw [hdef]
  apply unqLoop_esc
  have := escList_ge ip s
  simp only [List.length_append, List.length_cons]
  omega

/-- Witness for C10: the record-side tag attribute appears as
`__tag__="x"`. -/
theorem c10_witness :
    handleLine envW hW rTagW =
      levelString 0 ++ "\t" ++ "m" ++ " " ++ tagKeyName ++ "=" ++ goQuote envW.ip "x" ++ "\n" :=
  (c10_record_tag_not_bracketed envW hW rTagW "x" rfl rfl rfl rfl).1

/-- Claim C4: a string-valued attribute renders as `prefix+key=` followed by
the Go-quoted value, and parsing that quoted string back with Go
quoted-string syntax yields exactly the original value — for every string and
every non-ASCII printability table. -/
theorem c4_string_attr_roundtrip (env : RenderEnv) (opts : Options)
    (buf key pfx : String) (s : String) :
    appendAttr env opts buf key (.str s) pfx =
      buf ++ " " ++ (pfx ++ key) ++ "=" ++ goQuote env.ip s ∧
    goUnquote (goQuote env.ip s) = some s := by
  constructor
  · simp [appendAttr, isNilValue]
  · show (goUnquoteL (goQuoteL env.ip s.data)).map String.mk = some s
    rw [goUnquoteL_goQuoteL]
    rfl

end Slogtfmt
